import Mathlib

/-!
Verification of the Monte Carlo cyber-risk engine of the `impact` repository.

The engine is embedded shallowly over `ℚ`:
* JS `number` arithmetic is modelled by exact rational arithmetic;
* the ambient random source (`Math.random()`) is modelled by an explicit
  finite list of uniform draws in `[0,1)` that each sampling call consumes
  from the front; an execution that would need more draws than supplied is
  modelled as `Option.none` (JS never exhausts the source, so every claim
  about an actual run is stated on executions that return `some`);
* `Math.sqrt` and `Math.exp` are transcendental, hence passed as explicit
  function parameters `s` and `E`; theorems that depend on properties of
  the real square root take those properties as hypotheses on `s`.
-/

namespace Impact

/-- Input value of one variable (`src/store/types.ts`):
triangular descriptor with optional `min`/`max` (`min?: number; mode: number; max?: number`). -/
structure InputValue where
  min : Option ℚ
  mode : ℚ
  max : Option ℚ
deriving DecidableEq

/-- Control definition (`src/store/types.ts`): which input variables a control affects. -/
structure ControlDef where
  id : String
  group : String
  label : String
  variableIds : List String
deriving DecidableEq

/-- Aggregated simulation results (field-for-field the object posted by the
worker / returned by `runSync`). -/
structure SimResults where
  mean : ℚ
  median : ℚ
  p50 : ℚ
  p90 : ℚ
  p95 : ℚ
  grossP90 : ℚ
  netP90 : ℚ
  topDriver : String
  iterationCount : ℕ
  lossSamples : List ℚ
deriving DecidableEq

/-! ## Insurance transform (`src/model/insurance.ts`) -/

/-- `netLoss` from `src/model/insurance.ts`:
```
if (grossLoss <= deductible) return grossLoss;
const aboveDeductible = grossLoss - deductible;
const insured = Math.min(aboveDeductible, coverageLimit);
return grossLoss - insured;
```
(the two intermediate constants are inlined). -/
def netLoss (grossLoss deductible coverageLimit : ℚ) : ℚ :=
  if grossLoss ≤ deductible then grossLoss
  else grossLoss - min (grossLoss - deductible) coverageLimit

/-- The closed form stated in the code comment above `netLoss`:
`NetLoss = min(GrossLoss, Deductible) + max(0, GrossLoss - Deductible - CoverageLimit)`. -/
def netLossClosedForm (grossLoss deductible coverageLimit : ℚ) : ℚ :=
  min grossLoss deductible + max 0 (grossLoss - deductible - coverageLimit)

/-! ## Control multipliers (`src/model/controlMultipliers.ts`) -/

/-- `multiplier(maturity, strength)` from `controlMultipliers.ts`:
`Math.max(0.05, 1 - (maturity / 5) * strength)`.
(The source also declares `DEFAULT_STRENGTH = 0.8`; every call in the
repository passes `strength` explicitly.) -/
def multiplier (maturity strength : ℚ) : ℚ :=
  max (1/20) (1 - maturity / 5 * strength)

/-- `probabilityMultiplier` (strength 0.85). -/
def probabilityMultiplier (maturity : ℚ) : ℚ := multiplier maturity (17/20)

/-- `timeMultiplier` (strength 0.8). -/
def timeMultiplier (maturity : ℚ) : ℚ := multiplier maturity (4/5)

/-- `costMultiplier` (strength 0.7). -/
def costMultiplier (maturity : ℚ) : ℚ := multiplier maturity (7/10)

/-! ## Effective inputs (`src/model/effectiveInputs.ts`) -/

/-- `PROB_VARS` set from `effectiveInputs.ts` (JS `Set`, modelled as a list
with exact string membership). -/
def PROB_VARS : List String :=
  ["TEF", "P_InitialAccess", "P_IFSReachable", "P_WriteAccess", "P_Secondary"]

/-- `TIME_VARS` set from `effectiveInputs.ts`. -/
def TIME_VARS : List String := ["T_DetectDays", "T_RecoveryDays"]

/-- `COST_VARS` set from `effectiveInputs.ts`. -/
def COST_VARS : List String := ["Cost_IR", "Cost_Recovery", "Cost_DowntimePerDay"]

/-- `getMultiplierForVariable` from `effectiveInputs.ts`: product over all
control definitions containing the variable of the family multiplier at the
control's maturity (`controls[c.id] ?? 0`). JS objects are modelled as
association lists read with `List.lookup`. -/
def getMultiplierForVariable (variableId : String) (controls : List (String × ℚ))
    (controlDefs : List ControlDef) : ℚ :=
  controlDefs.foldl
    (fun product c =>
      if c.variableIds.contains variableId then
        let m := (controls.lookup c.id).getD 0
        if PROB_VARS.contains variableId then product * probabilityMultiplier m
        else if TIME_VARS.contains variableId then product * timeMultiplier m
        else if COST_VARS.contains variableId then product * costMultiplier m
        else product * probabilityMultiplier m
      else product)
    1

/-- Scaling of a triangular descriptor by a factor: the object literal
`( min: v.min != null ? v.min * f : undefined, mode: v.mode * f, max: ... )`
used both by `getEffectiveInputs` and by the worker's `perturb`. -/
def scaleIV (factor : ℚ) (v : InputValue) : InputValue :=
  ⟨v.min.map (· * factor), v.mode * factor, v.max.map (· * factor)⟩

/-- `getEffectiveInputs` from `effectiveInputs.ts`. -/
def getEffectiveInputs (inputs : List (String × InputValue)) (controls : List (String × ℚ))
    (controlDefs : List ControlDef) : List (String × InputValue) :=
  inputs.map (fun kv =>
    let mult := getMultiplierForVariable kv.1 controls controlDefs
    (kv.1, scaleIV mult kv.2))

/-! ## Distribution samplers (`src/model/distributions.ts`) -/

/-- JS `a || b` for a non-`NaN` number `a`: yields `b` exactly when `a = 0`.
(`sampleTriangular` applies it to its two branch results and to the ratio `c`;
for the ratio, `ℚ` already returns `0` on division by zero, matching
`0/0 = NaN` followed by `|| 0`.) -/
def jsOr (x fallback : ℚ) : ℚ := if x = 0 then fallback else x

/-- `sampleTriangular` from `distributions.ts`, with the uniform draw `u`
(`Math.random()`) and the square-root function `s` (`Math.sqrt`) explicit:
```
const c = (mode - min) / (max - min) || 0;
if (u <= c) return min + Math.sqrt(u * (max - min) * (mode - min)) || min;
return max - Math.sqrt((1 - u) * (max - min) * (max - mode)) || max;
```
(the single-use constant `c` is inlined into the condition). -/
def sampleTriangular (s : ℚ → ℚ) (mn mode mx u : ℚ) : ℚ :=
  if u ≤ jsOr ((mode - mn) / (mx - mn)) 0 then
    jsOr (mn + s (u * (mx - mn) * (mode - mn))) mn
  else jsOr (mx - s ((1 - u) * (mx - mn) * (mx - mode))) mx

/-- The `do..while` loop of `samplePoisson`: `k++; p *= draw;` repeated
`while (p > L)`, returning `k - 1` and the unconsumed draws. Exhausting the
finite draw list models the (probability-zero) non-terminating execution. -/
def poissonLoop (L : ℚ) (p : ℚ) (k : ℕ) : List ℚ → Option (ℕ × List ℚ)
  | [] => none
  | d :: ds =>
    let p2 := p * d
    let k2 := k + 1
    if L < p2 then poissonLoop L p2 k2 ds else some (k2 - 1, ds)

/-- `samplePoisson` from `distributions.ts` with `E` standing for `Math.exp`:
`if (lambda <= 0) return 0;` then Knuth's product-of-uniforms loop with
threshold `L = E (-lambda)`. -/
def samplePoisson (E : ℚ → ℚ) (lambda : ℚ) (draws : List ℚ) : Option (ℕ × List ℚ) :=
  if lambda ≤ 0 then some (0, draws)
  else poissonLoop (E (-lambda)) 1 0 draws

/-- `sampleBernoulli` from `distributions.ts`: `Math.random() < p ? 1 : 0`. -/
def sampleBernoulli (p u : ℚ) : ℚ := if u < p then 1 else 0

/-! ## Iteration engine (`src/model/engine.ts`) -/

/-- The local `sample` closure of `runOneIteration`: a missing key yields `0`
without consuming a draw; a present key consumes one draw and samples the
triangular distribution with defaults `min = mode * 0.5`, `max = mode * 1.5`. -/
def sampleVar (s : ℚ → ℚ) (effective : List (String × InputValue)) (key : String)
    (draws : List ℚ) : Option (ℚ × List ℚ) :=
  match effective.lookup key with
  | none => some (0, draws)
  | some v =>
    match draws with
    | [] => none
    | u :: rest =>
      let mn := v.min.getD (v.mode * (1/2))
      let mx := v.max.getD (v.mode * (3/2))
      some (sampleTriangular s mn v.mode mx u, rest)

/-- Fixed secondary-loss constants of `engine.ts`. -/
def COST_LEGAL : ℚ := 200000

/-- Fixed secondary-loss constants of `engine.ts`. -/
def COST_NOTIFICATION : ℚ := 150000

/-- Fixed secondary-loss constants of `engine.ts`. -/
def COST_CHURN : ℚ := 400000

/-- The `for (let i = 0; i < eventCount; i++)` body of `runOneIteration`:
per event sample the five cost/time variables, `P_Secondary`, draw the
Bernoulli trial, and accumulate `gross += primary + secondary`. -/
def eventsLoop (s : ℚ → ℚ) (effective : List (String × InputValue)) :
    ℕ → ℚ → List ℚ → Option (ℚ × List ℚ)
  | 0, acc, draws => some (acc, draws)
  | n + 1, acc, draws =>
    match sampleVar s effective "Cost_IR" draws with
    | none => none
    | some (ir, d1) =>
      match sampleVar s effective "Cost_Recovery" d1 with
      | none => none
      | some (recovery, d2) =>
        match sampleVar s effective "T_DetectDays" d2 with
        | none => none
        | some (tDetect, d3) =>
          match sampleVar s effective "T_RecoveryDays" d3 with
          | none => none
          | some (tRecover, d4) =>
            match sampleVar s effective "Cost_DowntimePerDay" d4 with
            | none => none
            | some (costPerDay, d5) =>
              let downtime := (tDetect + tRecover) * costPerDay
              let primary := ir + recovery + downtime
              match sampleVar s effective "P_Secondary" d5 with
              | none => none
              | some (pSec, d6) =>
                match d6 with
                | [] => none
                | u :: d7 =>
                  let secondary :=
                    sampleBernoulli pSec u * (COST_LEGAL + COST_NOTIFICATION + COST_CHURN)
                  eventsLoop s effective n (acc + (primary + secondary)) d7

/-- `runOneIteration` from `engine.ts`: sample the four chain variables,
`lambda = TEF * P_IA * P_IFS * P_Write`, Poisson event count, per-event cost
accumulation, and the insurance transform. Returns `(gross, net)` plus the
unconsumed draws. -/
def runOneIteration (s E : ℚ → ℚ) (effective : List (String × InputValue))
    (deductible coverageLimit : ℚ) (draws : List ℚ) : Option (ℚ × ℚ × List ℚ) :=
  match sampleVar s effective "TEF" draws with
  | none => none
  | some (tef, d1) =>
    match sampleVar s effective "P_InitialAccess" d1 with
    | none => none
    | some (pIA, d2) =>
      match sampleVar s effective "P_IFSReachable" d2 with
      | none => none
      | some (pIFS, d3) =>
        match sampleVar s effective "P_WriteAccess" d3 with
        | none => none
        | some (pWrite, d4) =>
          let lambda := tef * pIA * pIFS * pWrite
          match samplePoisson E lambda d4 with
          | none => none
          | some (eventCount, d5) =>
            match eventsLoop s effective eventCount 0 d5 with
            | none => none
            | some (gross, d6) =>
              let net := netLoss gross deductible coverageLimit
              some (gross, net, d6)

/-- `percentile` from `engine.ts`:
```
if (sorted.length === 0) return 0;
const i = p * (sorted.length - 1);
const lo = Math.floor(i); const hi = Math.ceil(i);
if (lo === hi) return sorted[lo];
return sorted[lo] * (1 - (i - lo)) + sorted[hi] * (i - lo);
``` -/
def percentile (sorted : List ℚ) (p : ℚ) : ℚ :=
  if sorted.length = 0 then 0
  else
    let i : ℚ := p * ((sorted.length : ℚ) - 1)
    let lo := ⌊i⌋
    let hi := ⌈i⌉
    if lo = hi then sorted.getD lo.toNat 0
    else sorted.getD lo.toNat 0 * (1 - (i - lo)) + sorted.getD hi.toNat 0 * (i - lo)

/-- JS `array.sort((a, b) => a - b)`: ascending sort of rationals. -/
def sortQ (l : List ℚ) : List ℚ := List.insertionSort (· ≤ ·) l

/-! ## Simulation driver (`src/worker/monteCarlo.worker.ts` and
`useSimulation` in `src/app/FmvaSpreadsheet.tsx`) -/

/-- `SENSITIVITY_VARS` from the worker. -/
def SENSITIVITY_VARS : List String :=
  ["P_IFSReachable", "P_WriteAccess", "T_DetectDays", "P_Secondary", "TEF"]

/-- `perturb` from the worker: multiply the named variable's `min`, `mode`,
`max` by `factor` (absent bounds stay absent), leaving every other variable
unchanged. `cloneInputs` plus keyed assignment on a JS object is modelled as
a keyed update of the association list. -/
def perturb (inputs : List (String × InputValue)) (varId : String) (factor : ℚ) :
    List (String × InputValue) :=
  inputs.map (fun kv => if kv.1 = varId then (kv.1, scaleIV factor kv.2) else kv)

/-- The `for (let i = 0; i < iterationCount; i++)` collection loop shared by
the worker and `runSync`: run `runOneIteration` repeatedly, collecting the
gross and net lists in iteration order. -/
def runMany (s E : ℚ → ℚ) (effective : List (String × InputValue))
    (deductible coverageLimit : ℚ) : ℕ → List ℚ → Option (List ℚ × List ℚ × List ℚ)
  | 0, draws => some ([], [], draws)
  | n + 1, draws =>
    match runOneIteration s E effective deductible coverageLimit draws with
    | none => none
    | some (gross, net, rest) =>
      match runMany s E effective deductible coverageLimit n rest with
      | none => none
      | some (grosses, nets, rest2) => some (gross :: grosses, net :: nets, rest2)

/-- The sensitivity sweep loop of the worker: for each candidate variable in
order, run `Math.min(2000, iterationCount)` perturbed trials (factor 1.1),
compute the perturbed net P90, and keep the candidate on a strict increase of
`delta` over the running maximum (which starts at 0). -/
def sweep (s E : ℚ → ℚ) (effective : List (String × InputValue))
    (deductible coverageLimit baselineP90 : ℚ) (trials : ℕ) :
    List String → ℚ → Option String → List ℚ → Option (Option String × List ℚ)
  | [], _maxDelta, topDriver, draws => some (topDriver, draws)
  | varId :: vs, maxDelta, topDriver, draws =>
    match runMany s E (perturb effective varId (11/10)) deductible coverageLimit trials draws with
    | none => none
    | some (_gs, perturbedNets, rest) =>
      let perturbP90 := percentile (sortQ perturbedNets) (9/10)
      let delta := perturbP90 - baselineP90
      if maxDelta < delta then
        sweep s E effective deductible coverageLimit baselineP90 trials vs delta (some varId) rest
      else
        sweep s E effective deductible coverageLimit baselineP90 trials vs maxDelta topDriver rest

/-- The worker's `self.onmessage` handler (`monteCarlo.worker.ts`): the main
iteration loop, ascending sorts, percentile statistics, the optional
sensitivity sweep (`runSensitivity && iterationCount >= 1000`, fallback
`SENSITIVITY_VARS[0]`, otherwise the fixed label `"P_WriteAccess"`), and the
posted result with `lossSamples = nets.slice(0, 5000)`. -/
def workerRun (s E : ℚ → ℚ) (effective : List (String × InputValue))
    (deductible coverageLimit : ℚ) (iterationCount : ℕ) (runSensitivity : Bool)
    (draws : List ℚ) : Option SimResults :=
  match runMany s E effective deductible coverageLimit iterationCount draws with
  | none => none
  | some (grosses, nets, rest) =>
    let gsort := sortQ grosses
    let nsort := sortQ nets
    let meanNet := nsort.sum / (nsort.length : ℚ)
    let medianNet := percentile nsort (1/2)
    let p90g := percentile gsort (9/10)
    let p50n := percentile nsort (1/2)
    let p90n := percentile nsort (9/10)
    let p95n := percentile nsort (19/20)
    if runSensitivity ∧ 1000 ≤ iterationCount then
      match sweep s E effective deductible coverageLimit p90n (min 2000 iterationCount)
          SENSITIVITY_VARS 0 none rest with
      | none => none
      | some (topDriver, _rest2) =>
        some ⟨meanNet, medianNet, p50n, p90n, p95n, p90g, p90n,
              topDriver.getD "P_IFSReachable", iterationCount, nsort.take 5000⟩
    else
      some ⟨meanNet, medianNet, p50n, p90n, p95n, p90g, p90n,
            "P_WriteAccess", iterationCount, nsort.take 5000⟩

/-- `runSync` from `FmvaSpreadsheet.tsx`: the synchronous small-`N` path
(fixed `topDriver = "P_WriteAccess"`, `lossSamples = nets.slice(0, 1000)`). -/
def runSync (s E : ℚ → ℚ) (effective : List (String × InputValue))
    (deductible coverageLimit : ℚ) (iterations : ℕ) (draws : List ℚ) : Option SimResults :=
  match runMany s E effective deductible coverageLimit iterations draws with
  | none => none
  | some (grosses, nets, _rest) =>
    let gsort := sortQ grosses
    let nsort := sortQ nets
    some ⟨nsort.sum / (nsort.length : ℚ), percentile nsort (1/2), percentile nsort (1/2),
          percentile nsort (9/10), percentile nsort (19/20), percentile gsort (9/10),
          percentile nsort (9/10), "P_WriteAccess", iterations, nsort.take 1000⟩

/-- The `worker.onerror` handler of `useSimulation` (`FmvaSpreadsheet.tsx`):
`runSync(eff, deductible, coverageLimit, Math.min(iterationCount, 5000))`. -/
def onWorkerError (s E : ℚ → ℚ) (effective : List (String × InputValue))
    (deductible coverageLimit : ℚ) (iterationCount : ℕ) (draws : List ℚ) : Option SimResults :=
  runSync s E effective deductible coverageLimit (min iterationCount 5000) draws

/-! ## Declarative (spec-side) formulations -/

/-- Modelled from the spec: the sensitivity deltas, one per candidate in the
fixed order, each being "perturbed net P90 over `min(2000, iterationCount)`
trials minus the baseline net P90", with the draws consumed sequentially
exactly as the worker consumes them. -/
def deltasOf (s E : ℚ → ℚ) (effective : List (String × InputValue))
    (deductible coverageLimit baselineP90 : ℚ) (trials : ℕ) :
    List String → List ℚ → Option (List (String × ℚ) × List ℚ)
  | [], draws => some ([], draws)
  | varId :: vs, draws =>
    match runMany s E (perturb effective varId (11/10)) deductible coverageLimit trials draws with
    | none => none
    | some (_gs, perturbedNets, rest) =>
      match deltasOf s E effective deductible coverageLimit baselineP90 trials vs rest with
      | none => none
      | some (items, rest2) =>
        some ((varId, percentile (sortQ perturbedNets) (9/10) - baselineP90) :: items, rest2)

/-- The pure accumulator fold underlying the worker's sweep: keep the current
candidate on a strictly greater delta. -/
def selFold : List (String × ℚ) → ℚ → Option String → Option String
  | [], _maxDelta, topDriver => topDriver
  | item :: rest, maxDelta, topDriver =>
    if maxDelta < item.2 then selFold rest item.2 (some item.1)
    else selFold rest maxDelta topDriver

/-- Modelled from the spec: "record the variable producing the largest
positive increase in P90 versus the baseline P90; tie-break: first variable
in the fixed iteration order wins; if no perturbation increases P90, fall
back to the first candidate in the fixed list". -/
def specSelect (items : List (String × ℚ)) : String :=
  let M := (items.map Prod.snd).foldr max 0
  if 0 < M then ((items.find? (fun it => decide (it.2 = M))).map Prod.fst).getD "P_IFSReachable"
  else "P_IFSReachable"

/-- Modelled from the spec: the `topDriver` the sensitivity sweep should
produce — recompute the baseline run, then select among the per-candidate
deltas with `specSelect`. -/
def specTopDriver (s E : ℚ → ℚ) (effective : List (String × InputValue))
    (deductible coverageLimit : ℚ) (iterationCount : ℕ) (draws : List ℚ) : Option String :=
  match runMany s E effective deductible coverageLimit iterationCount draws with
  | none => none
  | some (_gs, nets, rest) =>
    match deltasOf s E effective deductible coverageLimit
        (percentile (sortQ nets) (9/10)) (min 2000 iterationCount) SENSITIVITY_VARS rest with
    | none => none
    | some (items, _rest2) => some (specSelect items)

/-- Modelled from the spec: the aggregate control multiplier for a variable —
the product, over all control definitions whose `variableIds` contain the
variable, of the family multiplier (probability / time / cost by membership
in the fixed sets, probability for unclassified names) at the control's
maturity (0 when absent from the controls map). -/
def specAggMultiplier (variableId : String) (controls : List (String × ℚ))
    (controlDefs : List ControlDef) : ℚ :=
  ((controlDefs.filter (fun c => c.variableIds.contains variableId)).map
    (fun c =>
      let m := (controls.lookup c.id).getD 0
      if PROB_VARS.contains variableId then probabilityMultiplier m
      else if TIME_VARS.contains variableId then timeMultiplier m
      else if COST_VARS.contains variableId then costMultiplier m
      else probabilityMultiplier m)).prod

/-- Modelled from the spec: `percentile` as "linear interpolation at index
`i = p * (n - 1)` between the elements at `floor i` and `ceil i`, weighted by
the fractional part of `i`". -/
def specInterp (l : List ℚ) (p : ℚ) : ℚ :=
  let i : ℚ := p * ((l.length : ℚ) - 1)
  (1 - Int.fract i) * l.getD (⌊i⌋).toNat 0 + Int.fract i * l.getD (⌈i⌉).toNat 0

/-! ## Facts about the insurance transform -/

lemma netLoss_le_gross (g d l : ℚ) (hl : 0 ≤ l) : netLoss g d l ≤ g := by
  unfold netLoss
  split_ifs with h
  · exact le_refl g
  · exact sub_le_self g (le_min (by linarith) hl)

lemma netLoss_ge_gross_sub_limit (g d l : ℚ) (hl : 0 ≤ l) : g - l ≤ netLoss g d l := by
  unfold netLoss
  split_ifs with h
  · linarith
  · have : min (g - d) l ≤ l := min_le_right _ _
    linarith

lemma netLoss_mono (d l g1 g2 : ℚ) (h : g1 ≤ g2) : netLoss g1 d l ≤ netLoss g2 d l := by
  unfold netLoss
  split_ifs with h1 h2 h2
  · exact h
  · have hmin : min (g2 - d) l ≤ g2 - d := min_le_left _ _
    linarith
  · linarith
  · rcases le_total (g1 - d) l with h3 | h3 <;> rcases le_total (g2 - d) l with h4 | h4
    · rw [min_eq_left h3, min_eq_left h4]; linarith
    · rw [min_eq_left h3, min_eq_right h4]; linarith
    · have h5 : l ≤ g2 - d := by linarith
      rw [min_eq_right h3, min_eq_right h5]
      linarith
    · rw [min_eq_right h3, min_eq_right h4]; linarith

lemma netLoss_below_deductible (g d l : ℚ) (h : g ≤ d) : netLoss g d l = g := by
  unfold netLoss
  simp [h]

/-- Claim C2 (corrected): `netLoss` satisfies `net ≤ gross` and
`net ≥ gross - coverageLimit` whenever the coverage limit is nonnegative
(both clauses fail for a negative coverage limit, see the counterexample);
it is monotone non-decreasing in `gross` for all parameters, and returns
`gross` unchanged whenever `gross ≤ deductible`. -/
theorem impact_C2 (g d l g1 g2 : ℚ) :
    (0 ≤ l → netLoss g d l ≤ g) ∧
    (0 ≤ l → g - l ≤ netLoss g d l) ∧
    (g1 ≤ g2 → netLoss g1 d l ≤ netLoss g2 d l) ∧
    (g ≤ d → netLoss g d l = g) :=
  ⟨netLoss_le_gross g d l, netLoss_ge_gross_sub_limit g d l,
   netLoss_mono d l g1 g2, netLoss_below_deductible g d l⟩

/-- Claim C2, counterexample to the claim as frozen: with a negative coverage
limit, `netLoss 100 0 (-1) = 101 > 100` violates `net ≤ gross`, and
`netLoss 0 0 (-1) = 0 < 0 - (-1)` violates `net ≥ gross - coverageLimit`. -/
theorem impact_C2_counterexample :
    netLoss 100 0 (-1) = 101 ∧ ¬ netLoss 100 0 (-1) ≤ 100 ∧
    netLoss 0 0 (-1) = 0 ∧ ¬ (0 : ℚ) - (-1) ≤ netLoss 0 0 (-1) := by
  refine ⟨?_, ?_, ?_, ?_⟩ <;> with_unfolding_all decide

/-- Claim C2, witness: the amended theorem evaluated at concrete inputs. -/
theorem impact_C2_witness :
    netLoss 500 100 1000 ≤ 500 ∧
    (500 : ℚ) - 1000 ≤ netLoss 500 100 1000 ∧
    netLoss 3 100 1000 ≤ netLoss 7 100 1000 ∧
    netLoss 50 100 1000 = 50 :=
  ⟨(impact_C2 500 100 1000 3 7).1 (by decide),
   (impact_C2 500 100 1000 3 7).2.1 (by decide),
   (impact_C2 500 100 1000 3 7).2.2.1 (by decide),
   (impact_C2 50 100 1000 3 7).2.2.2 (by decide)⟩

/-- Claim C10: for nonnegative gross, deductible and coverage limit, the
branching implementation of `netLoss` equals the closed form of its code
comment, `min(gross, deductible) + max(0, gross - deductible - limit)`. -/
theorem impact_C10 (g d l : ℚ) (_hg : 0 ≤ g) (_hd : 0 ≤ d) (hl : 0 ≤ l) :
    netLoss g d l = netLossClosedForm g d l := by
  unfold netLoss netLossClosedForm
  split_ifs with h
  · have h1 : min g d = g := min_eq_left h
    have h2 : max 0 (g - d - l) = 0 := max_eq_left (by linarith)
    rw [h1, h2, add_zero]
  · have h1 : min g d = d := min_eq_right (by linarith)
    rcases le_total (g - d) l with h3 | h3
    · have h4 : min (g - d) l = g - d := min_eq_left h3
      have h5 : max 0 (g - d - l) = 0 := max_eq_left (by linarith)
      rw [h1, h4, h5]; ring
    · have h4 : min (g - d) l = l := min_eq_right h3
      have h5 : max 0 (g - d - l) = g - d - l := max_eq_right (by linarith)
      rw [h1, h4, h5]; ring

/-- Claim C10, witness: the closed form evaluated at a limit-capped input. -/
theorem impact_C10_witness :
    (0 : ℚ) ≤ 2000 ∧ netLoss 2000 100 1000 = netLossClosedForm 2000 100 1000 ∧
    netLoss 2000 100 1000 = 1000 :=
  ⟨by decide, impact_C10 2000 100 1000 (by decide) (by decide) (by decide),
   by set_option maxRecDepth 10000 in with_unfolding_all decide⟩

/-! ## Facts about the triangular sampler -/

/-- Claim C5: for `min ≤ mode ≤ max` and a uniform draw `u ∈ [0,1)`,
`sampleTriangular` stays in the closed interval `[min, max]`, and in the
degenerate case `max = min` (where the JS ratio `c` is `0/0 = NaN`, coerced
to `0` by `|| 0`, matching `ℚ`'s division by zero) it returns `min = max`.
The hypotheses on `s` are properties of the real square root:
nonnegativity on nonnegative arguments, and `x ≤ y * y → sqrt x ≤ y` for
`y ≥ 0`. -/
theorem impact_C5 (s : ℚ → ℚ)
    (hs0 : ∀ x, 0 ≤ x → 0 ≤ s x)
    (hs1 : ∀ x y, 0 ≤ y → x ≤ y * y → s x ≤ y)
    (mn mo mx u : ℚ) (h1 : mn ≤ mo) (h2 : mo ≤ mx) (hu0 : 0 ≤ u) (hu1 : u < 1) :
    mn ≤ sampleTriangular s mn mo mx u ∧ sampleTriangular s mn mo mx u ≤ mx ∧
    (mx = mn → sampleTriangular s mn mo mx u = mn) := by
  have hs00 : s 0 = 0 :=
    le_antisymm (hs1 0 0 (le_refl 0) (by norm_num)) (hs0 0 (le_refl 0))
  rcases eq_or_ne mx mn with hmx | hmx
  · have hmo : mo = mn := le_antisymm (hmx ▸ h2) h1
    have hres : sampleTriangular s mn mo mx u = mn := by
      rw [hmx, hmo]
      simp [sampleTriangular, jsOr, sub_self, mul_zero, zero_mul, hs00]
    exact ⟨le_of_eq hres.symm, hres.le.trans (le_of_eq hmx.symm), fun _ => hres⟩
  · have hlt : mn < mx := lt_of_le_of_ne (h1.trans h2) (Ne.symm hmx)
    have hA : (0 : ℚ) ≤ mx - mn := by linarith
    have hbounds : mn ≤ sampleTriangular s mn mo mx u ∧ sampleTriangular s mn mo mx u ≤ mx := by
      unfold sampleTriangular
      split_ifs with hcond
      · have harg0 : 0 ≤ u * (mx - mn) * (mo - mn) :=
          mul_nonneg (mul_nonneg hu0 hA) (by linarith)
        have hB : (0 : ℚ) ≤ mo - mn := by linarith
        have e1 : u * (mo - mn) ≤ mo - mn := by
          nlinarith [mul_nonneg (show (0:ℚ) ≤ 1 - u by linarith) hB]
        have hargle : u * (mx - mn) * (mo - mn) ≤ (mx - mn) * (mx - mn) := by
          have e2 : u * (mx - mn) * (mo - mn) = (mx - mn) * (u * (mo - mn)) := by ring
          have e3 : (mx - mn) * (u * (mo - mn)) ≤ (mx - mn) * (mo - mn) :=
            mul_le_mul_of_nonneg_left e1 hA
          have e4 : (mx - mn) * (mo - mn) ≤ (mx - mn) * (mx - mn) :=
            mul_le_mul_of_nonneg_left (by linarith) hA
          linarith [e2.le, e2.ge]
        have hle : s (u * (mx - mn) * (mo - mn)) ≤ mx - mn := hs1 _ _ hA hargle
        have hge : 0 ≤ s (u * (mx - mn) * (mo - mn)) := hs0 _ harg0
        unfold jsOr
        split_ifs with hz
        · exact ⟨le_refl mn, le_of_lt hlt⟩
        · constructor <;> linarith
      · have harg0 : 0 ≤ (1 - u) * (mx - mn) * (mx - mo) :=
          mul_nonneg (mul_nonneg (by linarith) hA) (by linarith)
        have hB2 : (0 : ℚ) ≤ mx - mo := by linarith
        have e1 : (1 - u) * (mx - mo) ≤ mx - mo := by
          nlinarith [mul_nonneg hu0 hB2]
        have hargle : (1 - u) * (mx - mn) * (mx - mo) ≤ (mx - mn) * (mx - mn) := by
          have e2 : (1 - u) * (mx - mn) * (mx - mo) = (mx - mn) * ((1 - u) * (mx - mo)) := by
            ring
          have e3 : (mx - mn) * ((1 - u) * (mx - mo)) ≤ (mx - mn) * (mx - mo) :=
            mul_le_mul_of_nonneg_left e1 hA
          have e4 : (mx - mn) * (mx - mo) ≤ (mx - mn) * (mx - mn) :=
            mul_le_mul_of_nonneg_left (by linarith) hA
          linarith [e2.le, e2.ge]
        have hle : s ((1 - u) * (mx - mn) * (mx - mo)) ≤ mx - mn := hs1 _ _ hA hargle
        have hge : 0 ≤ s ((1 - u) * (mx - mn) * (mx - mo)) := hs0 _ harg0
        unfold jsOr
        split_ifs with hz
        · exact ⟨le_of_lt hlt, le_refl mx⟩
        · constructor <;> linarith
    exact ⟨hbounds.1, hbounds.2, fun h => absurd h hmx⟩

/-- Claim C5, witness: a concrete in-range draw with `(10, 50, 100)`, with
the trivial square-root stand-in `fun _ => 0` (which satisfies both
hypotheses and agrees with the real square root at the argument `0` used in
the degenerate path). -/
theorem impact_C5_witness :
    (10 : ℚ) ≤ sampleTriangular (fun _ => 0) 10 50 100 (1/2) ∧
    sampleTriangular (fun _ => 0) 10 50 100 (1/2) ≤ 100 ∧
    ((100 : ℚ) = 10 → sampleTriangular (fun _ => 0) 10 50 100 (1/2) = 10) :=
  impact_C5 (fun _ => 0) (fun _ _ => le_refl 0) (fun _ y hy _ => hy)
    10 50 100 (1/2) (by decide) (by decide) (by with_unfolding_all decide)
    (by with_unfolding_all decide)

/-! ## Facts about `percentile` -/

lemma percentile_nil (q : ℚ) : percentile [] q = 0 := by
  simp [percentile]

lemma percentile_eq_specInterp (l : List ℚ) (p : ℚ) (hne : l ≠ []) :
    percentile l p = specInterp l p := by
  have hlen : l.length ≠ 0 := fun h => hne (List.length_eq_zero.mp h)
  unfold percentile specInterp
  rw [if_neg hlen]
  simp only [Int.fract]
  split_ifs with hlohi
  · have hfl : (⌊p * ((l.length : ℚ) - 1)⌋ : ℚ) = p * ((l.length : ℚ) - 1) := by
      have h1 : (⌊p * ((l.length : ℚ) - 1)⌋ : ℚ) ≤ p * ((l.length : ℚ) - 1) :=
        Int.floor_le _
      have h2 : p * ((l.length : ℚ) - 1) ≤ (⌈p * ((l.length : ℚ) - 1)⌉ : ℚ) :=
        Int.le_ceil _
      rw [← hlohi] at h2
      linarith
    have hcl : (⌈p * ((l.length : ℚ) - 1)⌉ : ℚ) = p * ((l.length : ℚ) - 1) := by
      rw [← hlohi]
      exact hfl
    rw [hlohi, hcl]
    ring_nf
  · rw [mul_comm]
    ring_nf

lemma percentile_odd_median (l : List ℚ) (hodd : l.length % 2 = 1) :
    percentile l (1/2) = l.getD (l.length / 2) 0 := by
  have hlen : l.length ≠ 0 := by omega
  obtain ⟨m, hm⟩ : ∃ m, l.length = 2 * m + 1 := ⟨l.length / 2, by omega⟩
  have him : (1 / 2 : ℚ) * ((l.length : ℚ) - 1) = (m : ℚ) := by
    rw [hm]
    push_cast
    ring
  have hdiv : l.length / 2 = m := by omega
  simp only [percentile]
  rw [if_neg hlen, him, Int.floor_natCast, Int.ceil_natCast, if_pos rfl, Int.toNat_natCast,
    hdiv]

/-- Claim C6: `percentile` returns 0 on the empty array for every `p`; on
every non-empty ascending-sorted array of any length (for `p ∈ [0,1]`, where
the JS index accesses are in range) it equals the spec's linear interpolation
`specInterp` at index `i = p * (n - 1)`; and at `p = 0.5` on an odd-length
sorted array it returns the exact middle element (index `(n-1)/2 = n/2`).
Each hypothesis is scoped to the conjunct that needs it. -/
theorem impact_C6 (l : List ℚ) (p : ℚ) (_hsorted : List.Sorted (· ≤ ·) l) :
    (∀ q, percentile [] q = 0) ∧
    (0 ≤ p → p ≤ 1 → l ≠ [] → percentile l p = specInterp l p) ∧
    (l.length % 2 = 1 → percentile l (1/2) = l.getD (l.length / 2) 0) :=
  ⟨percentile_nil, fun _ _ hne => percentile_eq_specInterp l p hne,
   fun hodd => percentile_odd_median l hodd⟩

/-- Claim C6, witness: the empty array at `p = 7/3`, the interpolation on the
even-length sorted array `[1, 4]` (between two distinct ranks), and the
median of the odd-length sorted array `[1, 2, 5]`. -/
theorem impact_C6_witness :
    percentile [] (7/3) = 0 ∧
    percentile [1, 4] (1/2) = specInterp [1, 4] (1/2) ∧
    percentile [1, 2, 5] (1/2) = ([1, 2, 5] : List ℚ).getD 1 0 :=
  ⟨(impact_C6 [1, 2, 5] (1/2) (by decide)).1 (7/3),
   (impact_C6 [1, 4] (1/2) (by decide)).2.1 (by norm_num) (by norm_num) (by decide),
   (impact_C6 [1, 2, 5] (1/2) (by decide)).2.2 (by decide)⟩

/-! ## Facts about the Poisson sampler -/

/-- Soundness of the Knuth loop: a returned value `res` with rest `rest`
means some prefix of `j ≥ 1` draws was consumed, the running product first
reached the threshold `L` exactly at draw `j`, `res = k + j - 1`, and the
unconsumed draws are the corresponding suffix. -/
lemma poissonLoop_sound (L : ℚ) :
    ∀ (draws : List ℚ) (p : ℚ) (k : ℕ) (res : ℕ) (rest : List ℚ),
      poissonLoop L p k draws = some (res, rest) →
      ∃ j, 1 ≤ j ∧ j ≤ draws.length ∧ res = k + j - 1 ∧
        p * (draws.take j).prod ≤ L ∧
        (∀ i, 1 ≤ i → i < j → L < p * (draws.take i).prod) ∧
        rest = draws.drop j := by
  intro draws
  induction draws with
  | nil => intro p k res rest h; simp [poissonLoop] at h
  | cons d ds ih =>
    intro p k res rest h
    simp only [poissonLoop] at h
    split_ifs at h with hgt
    · obtain ⟨j, hj1, hjlen, hres, hle, hpre, hrest⟩ := ih (p * d) (k + 1) res rest h
      refine ⟨j + 1, by omega, by simp only [List.length_cons]; omega, by omega, ?_, ?_, ?_⟩
      · rw [List.take_succ_cons, List.prod_cons, ← mul_assoc]
        exact hle
      · intro i hi1 hij
        rcases Nat.eq_or_lt_of_le hi1 with hi | hi
        · rw [← hi]
          simpa using hgt
        · have h2 : 1 ≤ i - 1 := by omega
          have h3 : i - 1 < j := by omega
          have h4 := hpre (i - 1) h2 h3
          have h5 : i = (i - 1) + 1 := by omega
          rw [h5, List.take_succ_cons, List.prod_cons, ← mul_assoc]
          exact h4
      · rw [List.drop_succ_cons]
        exact hrest
    · simp only [Option.some.injEq, Prod.mk.injEq] at h
      obtain ⟨hres, rfl⟩ := h
      refine ⟨1, le_refl 1, by simp, by omega, ?_, by omega, by simp⟩
      simp only [List.take_succ_cons, List.take_zero, List.prod_cons, List.prod_nil, mul_one]
      linarith [not_lt.mp hgt]

/-- Claim C9: `samplePoisson` returns `0` (consuming no draws) for every
`lambda ≤ 0`; for `lambda > 0` it runs Knuth's product-of-uniforms loop —
whenever it returns `k`, exactly `k + 1` draws were consumed, the running
product of the first `k + 1` draws is the first to fall to or below the
threshold `E (-lambda)` (every proper nonempty prefix stays strictly above
it), and the result is that count of draws minus one. The result type `ℕ`
makes non-negativity intrinsic. -/
theorem impact_C9 (E : ℚ → ℚ) (lambda : ℚ) (draws : List ℚ) :
    (lambda ≤ 0 → samplePoisson E lambda draws = some (0, draws)) ∧
    (0 < lambda → ∀ k rest, samplePoisson E lambda draws = some (k, rest) →
      k + 1 ≤ draws.length ∧
      (draws.take (k + 1)).prod ≤ E (-lambda) ∧
      (∀ j, 1 ≤ j → j ≤ k → E (-lambda) < (draws.take j).prod) ∧
      rest = draws.drop (k + 1)) := by
  constructor
  · intro hneg
    simp [samplePoisson, hneg]
  · intro hpos k rest h
    have hnneg : ¬ lambda ≤ 0 := not_le.mpr hpos
    simp only [samplePoisson, if_neg hnneg] at h
    obtain ⟨j, hj1, hjlen, hres, hle, hpre, hrest⟩ :=
      poissonLoop_sound (E (-lambda)) draws 1 0 k rest h
    have hjk : j = k + 1 := by omega
    subst hjk
    refine ⟨by omega, by rw [← one_mul (List.take (k + 1) draws).prod]; exact hle, ?_, hrest⟩
    intro i hi1 hik
    have h6 := hpre i hi1 (by omega)
    rw [one_mul] at h6
    exact h6

/-- Claim C9, witness: `lambda = 0` consumes nothing; for `lambda = 1` with
`E` standing in for `exp` (`E (-1) = 37/100`, and indeed
`e⁻¹ ≈ 0.3679 ∈ (9/100, 9/10)`), the draws `[9/10, 1/10]` yield `k = 1`
with products `9/10 > 37/100` and `9/100 ≤ 37/100`. -/
theorem impact_C9_witness :
    samplePoisson (fun _ => 37/100) 0 [] = some (0, []) ∧
    ((2 : ℕ) ≤ 2 ∧
      (([9/10, 1/10] : List ℚ).take 2).prod ≤ (fun _ => (37 : ℚ)/100) (-1) ∧
      (∀ j, 1 ≤ j → j ≤ 1 → (fun _ => (37 : ℚ)/100) (-1) < (([9/10, 1/10] : List ℚ).take j).prod) ∧
      ([] : List ℚ) = ([9/10, 1/10] : List ℚ).drop 2) :=
  ⟨(impact_C9 (fun _ => 37/100) 0 []).1 (by decide),
   (impact_C9 (fun _ => 37/100) 1 [9/10, 1/10]).2 (by decide) 1 []
     (by with_unfolding_all decide)⟩

/-! ## Facts about the effective-input resolver -/

lemma getMultiplierForVariable_foldl (variableId : String) (controls : List (String × ℚ)) :
    ∀ (controlDefs : List ControlDef) (acc : ℚ),
      List.foldl
        (fun product c =>
          if c.variableIds.contains variableId then
            let m := (controls.lookup c.id).getD 0
            if PROB_VARS.contains variableId then product * probabilityMultiplier m
            else if TIME_VARS.contains variableId then product * timeMultiplier m
            else if COST_VARS.contains variableId then product * costMultiplier m
            else product * probabilityMultiplier m
          else product) acc controlDefs
      = acc * specAggMultiplier variableId controls controlDefs := by
  intro controlDefs
  induction controlDefs with
  | nil => intro acc; simp [specAggMultiplier]
  | cons c rest ih =>
    intro acc
    by_cases hc : c.variableIds.contains variableId
    · simp only [List.foldl_cons, hc, if_true, ih, specAggMultiplier, List.filter_cons,
        List.map_cons, List.prod_cons]
      simp only [specAggMultiplier] at ih ⊢
      split_ifs <;> ring
    · simp only [List.foldl_cons, hc, if_false, ih, specAggMultiplier, List.filter_cons,
        Bool.false_eq_true]

lemma getMultiplierForVariable_eq_spec (variableId : String) (controls : List (String × ℚ))
    (controlDefs : List ControlDef) :
    getMultiplierForVariable variableId controls controlDefs
      = specAggMultiplier variableId controls controlDefs := by
  unfold getMultiplierForVariable
  rw [getMultiplierForVariable_foldl, one_mul]

lemma getEffectiveInputs_lookup (inputs : List (String × InputValue))
    (controls : List (String × ℚ)) (controlDefs : List ControlDef) (id : String) :
    (getEffectiveInputs inputs controls controlDefs).lookup id
      = (inputs.lookup id).map (scaleIV (getMultiplierForVariable id controls controlDefs)) := by
  induction inputs with
  | nil => simp [getEffectiveInputs]
  | cons kv rest ih =>
    obtain ⟨k, v⟩ := kv
    by_cases hk : id = k
    · subst hk
      simp [getEffectiveInputs, List.lookup]
    · have hbeq : (id == k) = false := beq_eq_false_iff_ne.mpr hk
      simp only [getEffectiveInputs, List.map_cons, List.lookup, hbeq] at ih ⊢
      exact ih

/-- Claim C4: for every inputs map, controls map and control-definition
list, each variable's effective descriptor is its baseline descriptor with
`mode` (and the defined ones among `min`/`max`) multiplied by the aggregate
multiplier — the product over all control definitions containing the
variable of the family multiplier (probability / time / cost by name
membership, probability as default) at the control's maturity (0 when the
control id is absent); `Option.map` in `scaleIV` keeps an undefined `min` or
`max` undefined. -/
theorem impact_C4 (inputs : List (String × InputValue)) (controls : List (String × ℚ))
    (controlDefs : List ControlDef) (id : String) :
    (getEffectiveInputs inputs controls controlDefs).lookup id
      = (inputs.lookup id).map (scaleIV (specAggMultiplier id controls controlDefs)) := by
  rw [getEffectiveInputs_lookup, getMultiplierForVariable_eq_spec]

/-! ## Facts about the iteration engine -/

lemma sampleVar_absent (s : ℚ → ℚ) (eff : List (String × InputValue)) (key : String)
    (draws : List ℚ) (h : eff.lookup key = none) :
    sampleVar s eff key draws = some (0, draws) := by
  simp [sampleVar, h]

/-- Every successful iteration returns `net = netLoss gross d l`. -/
lemma runOneIteration_net (s E : ℚ → ℚ) (eff : List (String × InputValue)) (d l : ℚ)
    (draws : List ℚ) (g net : ℚ) (rest : List ℚ)
    (h : runOneIteration s E eff d l draws = some (g, net, rest)) :
    net = netLoss g d l := by
  simp only [runOneIteration] at h
  repeat' split at h
  any_goals exact Option.noConfusion h
  simp only [Option.some.injEq, Prod.mk.injEq] at h
  obtain ⟨rfl, h2, _⟩ := h
  exact h2.symm

/-- If the four sampled chain values multiply to zero, a successful
iteration has `gross = 0` and `net = netLoss 0 d l`. -/
lemma runOneIteration_zero_chain (s E : ℚ → ℚ) (eff : List (String × InputValue)) (d l : ℚ)
    (draws : List ℚ) (g net : ℚ) (rest : List ℚ)
    (h : runOneIteration s E eff d l draws = some (g, net, rest))
    (hz : ∀ tef d1 pia d2 pifs d3 pw d4,
      sampleVar s eff "TEF" draws = some (tef, d1) →
      sampleVar s eff "P_InitialAccess" d1 = some (pia, d2) →
      sampleVar s eff "P_IFSReachable" d2 = some (pifs, d3) →
      sampleVar s eff "P_WriteAccess" d3 = some (pw, d4) →
      tef * pia * pifs * pw = 0) :
    g = 0 ∧ net = netLoss 0 d l := by
  simp only [runOneIteration] at h
  rcases e1 : sampleVar s eff "TEF" draws with _ | ⟨tef, d1⟩
  · simp [e1] at h
  rcases e2 : sampleVar s eff "P_InitialAccess" d1 with _ | ⟨pia, d2⟩
  · simp [e1, e2] at h
  rcases e3 : sampleVar s eff "P_IFSReachable" d2 with _ | ⟨pifs, d3⟩
  · simp [e1, e2, e3] at h
  rcases e4 : sampleVar s eff "P_WriteAccess" d3 with _ | ⟨pw, d4⟩
  · simp [e1, e2, e3, e4] at h
  have hlam : tef * pia * pifs * pw = 0 := hz tef d1 pia d2 pifs d3 pw d4 e1 e2 e3 e4
  simp only [e1, e2, e3, e4, hlam] at h
  have hpo : samplePoisson E 0 d4 = some (0, d4) := by simp [samplePoisson]
  simp only [hpo] at h
  have hev : eventsLoop s eff 0 0 d4 = some (0, d4) := by simp [eventsLoop]
  simp only [hev, Option.some.injEq, Prod.mk.injEq] at h
  obtain ⟨h1, h2, _⟩ := h
  exact ⟨h1.symm, h2.symm⟩

/-- Claim C8: in every effective-inputs map, a variable key absent from the
map samples as `0` (successfully, consuming no draw) instead of raising an
error — first conjunct, with no hypothesis on the map; and if any of the four
chain variables is absent, every successful iteration has `lambda = 0`, zero
events, `gross = 0`, and `net = netLoss 0 d l` — second conjunct, with the
absence disjunction scoped to it. -/
theorem impact_C8 (s E : ℚ → ℚ) (eff : List (String × InputValue)) (d l : ℚ)
    (draws : List ℚ) :
    (∀ key draws2, eff.lookup key = none → sampleVar s eff key draws2 = some (0, draws2)) ∧
    (eff.lookup "TEF" = none ∨ eff.lookup "P_InitialAccess" = none ∨
      eff.lookup "P_IFSReachable" = none ∨ eff.lookup "P_WriteAccess" = none →
      ∀ g net rest, runOneIteration s E eff d l draws = some (g, net, rest) →
        g = 0 ∧ net = netLoss 0 d l) := by
  refine ⟨fun key draws2 hk => sampleVar_absent s eff key draws2 hk, ?_⟩
  intro habs g net rest h
  apply runOneIteration_zero_chain s E eff d l draws g net rest h
  intro tef d1 pia d2 pifs d3 pw d4 e1 e2 e3 e4
  rcases habs with h1 | h1 | h1 | h1
  · rw [sampleVar_absent s eff _ draws h1] at e1
    obtain ⟨rfl, rfl⟩ : tef = 0 ∧ d1 = draws := by
      simpa [eq_comm, and_comm] using e1
    simp
  · rw [sampleVar_absent s eff _ d1 h1] at e2
    obtain ⟨rfl, rfl⟩ : pia = 0 ∧ d2 = d1 := by
      simpa [eq_comm, and_comm] using e2
    simp
  · rw [sampleVar_absent s eff _ d2 h1] at e3
    obtain ⟨rfl, rfl⟩ : pifs = 0 ∧ d3 = d2 := by
      simpa [eq_comm, and_comm] using e3
    simp
  · rw [sampleVar_absent s eff _ d3 h1] at e4
    obtain ⟨rfl, rfl⟩ : pw = 0 ∧ d4 = d3 := by
      simpa [eq_comm, and_comm] using e4
    simp

/-- Claim C8, witness: on a map with the complete chain but no cost keys,
the missing `Cost_IR` samples as `0` (the permissive default on a map where
no chain variable is absent); and with `TEF` absent (while `P_InitialAccess`
is present and samples a real value from the single draw), the iteration
returns `gross = 0` and `net = netLoss 0 5 7 = 0`. -/
theorem impact_C8_witness :
    sampleVar (fun _ => 0)
      [("TEF", ⟨none, 1, none⟩), ("P_InitialAccess", ⟨none, 1, none⟩),
       ("P_IFSReachable", ⟨none, 1, none⟩), ("P_WriteAccess", ⟨none, 1, none⟩)]
      "Cost_IR" [1/2] = some (0, [1/2]) ∧
    sampleVar (fun _ => 0) [("P_InitialAccess", ⟨none, 1, none⟩)] "TEF" [1/2]
      = some (0, [1/2]) ∧
    ((0 : ℚ) = 0 ∧ (0 : ℚ) = netLoss 0 5 7) := by
  have h := impact_C8 (fun _ => 0) (fun _ => 37/100)
    [("P_InitialAccess", ⟨none, 1, none⟩)] 5 7 [1/2]
  have h2 := impact_C8 (fun _ => 0) (fun _ => 37/100)
    [("TEF", ⟨none, 1, none⟩), ("P_InitialAccess", ⟨none, 1, none⟩),
     ("P_IFSReachable", ⟨none, 1, none⟩), ("P_WriteAccess", ⟨none, 1, none⟩)] 5 7 []
  exact ⟨h2.1 "Cost_IR" [1/2] (by decide),
    h.1 "TEF" [1/2] (by decide),
    h.2 (Or.inl (by decide)) 0 0 [] (by with_unfolding_all decide)⟩

/-! ## Facts about the execution scheduler's error fallback -/

lemma runSync_iterationCount (s E : ℚ → ℚ) (eff : List (String × InputValue)) (d l : ℚ)
    (n : ℕ) (draws : List ℚ) (r : SimResults)
    (h : runSync s E eff d l n draws = some r) : r.iterationCount = n := by
  simp only [runSync] at h
  rcases e : runMany s E eff d l n draws with _ | ⟨gs, ns, rest⟩
  · simp [e] at h
  · simp only [e, Option.some.injEq] at h
    rw [← h]

/-- Claim C7: the scheduler's `worker.onerror` handler delivers exactly the
result of a synchronous run at `Math.min(iterationCount, 5000)` iterations (a
`SimResults` value, not an error), whose `iterationCount` field is that
reduced count. -/
theorem impact_C7 (s E : ℚ → ℚ) (eff : List (String × InputValue)) (d l : ℚ)
    (n : ℕ) (draws : List ℚ) :
    onWorkerError s E eff d l n draws = runSync s E eff d l (min n 5000) draws ∧
    (∀ r, onWorkerError s E eff d l n draws = some r → r.iterationCount = min n 5000) :=
  ⟨rfl, fun r h => runSync_iterationCount s E eff d l (min n 5000) draws r h⟩

/-- Claim C7, witness: a concrete fallback run (3 requested iterations, all
inputs absent) delivering the full `SimResults` record with
`iterationCount = min 3 5000 = 3`. -/
theorem impact_C7_witness :
    onWorkerError (fun _ => 0) (fun _ => 37/100) [] 0 0 3 []
      = runSync (fun _ => 0) (fun _ => 37/100) [] 0 0 (min 3 5000) [] ∧
    (⟨0, 0, 0, 0, 0, 0, 0, "P_WriteAccess", 3, [0, 0, 0]⟩ : SimResults).iterationCount
      = min 3 5000 :=
  ⟨(impact_C7 (fun _ => 0) (fun _ => 37/100) [] 0 0 3 []).1,
   (impact_C7 (fun _ => 0) (fun _ => 37/100) [] 0 0 3 []).2
     ⟨0, 0, 0, 0, 0, 0, 0, "P_WriteAccess", 3, [0, 0, 0]⟩
     (by with_unfolding_all decide)⟩

/-! ## Order statistics: sorting, `getD`, and `percentile` monotonicity -/

lemma getD_map_lt (f : ℚ → ℚ) :
    ∀ (l : List ℚ) (k : ℕ), k < l.length → (l.map f).getD k 0 = f (l.getD k 0) := by
  intro l
  induction l with
  | nil => intro k hk; simp at hk
  | cons a t ih =>
    intro k hk
    cases k with
    | zero => simp
    | succ k =>
      simp only [List.map_cons, List.getD_cons_succ]
      exact ih k (by simpa using hk)

/-- Sorting commutes with mapping a monotone function. -/
lemma sortQ_map_mono (f : ℚ → ℚ) (hf : Monotone f) (l : List ℚ) :
    sortQ (l.map f) = (sortQ l).map f := by
  unfold sortQ
  refine List.eq_of_perm_of_sorted ?_ (List.sorted_insertionSort _ _) ?_
  · exact (List.perm_insertionSort _ _).trans ((List.perm_insertionSort _ l).symm.map f)
  · exact List.Pairwise.map f (fun a b hab => hf hab) (List.sorted_insertionSort _ l)

/-- `percentile` is monotone under pointwise domination of equal-length
arrays, for `p ∈ [0,1]`. -/
lemma percentile_mono (xs ys : List ℚ) (hlen : xs.length = ys.length)
    (hk : ∀ k, k < xs.length → xs.getD k 0 ≤ ys.getD k 0)
    (p : ℚ) (hp0 : 0 ≤ p) (hp1 : p ≤ 1) :
    percentile xs p ≤ percentile ys p := by
  rcases Nat.eq_zero_or_pos xs.length with h0 | hpos
  · have h0' : ys.length = 0 := by omega
    simp [percentile, h0, h0']
  · have h0 : xs.length ≠ 0 := by omega
    have h0' : ys.length ≠ 0 := by omega
    simp only [percentile, if_neg h0, if_neg h0', ← hlen]
    have hlen1 : (1 : ℚ) ≤ (xs.length : ℚ) := by exact_mod_cast hpos
    have hi0 : 0 ≤ p * ((xs.length : ℚ) - 1) := mul_nonneg hp0 (by linarith)
    have hin1 : p * ((xs.length : ℚ) - 1) ≤ (xs.length : ℚ) - 1 :=
      mul_le_of_le_one_left (by linarith) hp1
    set i : ℚ := p * ((xs.length : ℚ) - 1) with hidef
    have hlo0 : 0 ≤ ⌊i⌋ := Int.floor_nonneg.mpr hi0
    have hloQ : (⌊i⌋ : ℚ) ≤ i := Int.floor_le i
    have hloZ : ⌊i⌋ ≤ (xs.length : ℤ) - 1 := by
      have : (⌊i⌋ : ℚ) ≤ (xs.length : ℚ) - 1 := by linarith
      exact_mod_cast this
    have hlolt : (⌊i⌋).toNat < xs.length := by omega
    have hhiZ : ⌈i⌉ ≤ (xs.length : ℤ) - 1 := by
      apply Int.ceil_le.mpr
      push_cast
      linarith
    have hhi0 : 0 ≤ ⌈i⌉ := le_trans hlo0 (Int.floor_le_ceil i)
    have hhilt : (⌈i⌉).toNat < xs.length := by omega
    split_ifs with hcond
    · exact hk (⌊i⌋).toNat hlolt
    · have hfr0 : 0 ≤ i - (⌊i⌋ : ℚ) := by linarith
      have hfr1 : i - (⌊i⌋ : ℚ) ≤ 1 := by
        have := Int.lt_floor_add_one i
        push_cast at this
        linarith
      have t1 : xs.getD (⌊i⌋).toNat 0 * (1 - (i - (⌊i⌋ : ℚ)))
          ≤ ys.getD (⌊i⌋).toNat 0 * (1 - (i - (⌊i⌋ : ℚ))) :=
        mul_le_mul_of_nonneg_right (hk _ hlolt) (by linarith)
      have t2 : xs.getD (⌈i⌉).toNat 0 * (i - (⌊i⌋ : ℚ))
          ≤ ys.getD (⌈i⌉).toNat 0 * (i - (⌊i⌋ : ℚ)) :=
        mul_le_mul_of_nonneg_right (hk _ hhilt) hfr0
      linarith

/-! ## The iteration-collection loop -/

/-- `runMany` produces exactly `n` gross samples, and the net list is the
image of the gross list under the insurance transform. -/
lemma runMany_spec (s E : ℚ → ℚ) (eff : List (String × InputValue)) (d l : ℚ) :
    ∀ (n : ℕ) (draws gs ns rest),
      runMany s E eff d l n draws = some (gs, ns, rest) →
      gs.length = n ∧ ns = gs.map (fun g => netLoss g d l) := by
  intro n
  induction n with
  | zero =>
    intro draws gs ns rest h
    simp only [runMany, Option.some.injEq, Prod.mk.injEq] at h
    obtain ⟨h1, h2, _⟩ := h
    simp [← h1, ← h2]
  | succ n ih =>
    intro draws gs ns rest h
    simp only [runMany] at h
    rcases e1 : runOneIteration s E eff d l draws with _ | ⟨g1, net1, rest1⟩
    · simp [e1] at h
    · simp only [e1] at h
      rcases e2 : runMany s E eff d l n rest1 with _ | ⟨gs2, ns2, rest2⟩
      · simp [e2] at h
      · simp only [e2, Option.some.injEq, Prod.mk.injEq] at h
        obtain ⟨h1, h2, _⟩ := h
        obtain ⟨ihl, ihm⟩ := ih rest1 gs2 ns2 rest2 e2
        have hnet : net1 = netLoss g1 d l :=
          runOneIteration_net s E eff d l draws g1 net1 rest1 e1
        rw [← h1, ← h2]
        refine ⟨by simp [ihl], ?_⟩
        rw [List.map_cons, ← hnet, ihm]

/-- The central comparison: the 0.9-percentile of the sorted net list is at
most the 0.9-percentile of the sorted gross list, given a nonnegative
coverage limit. -/
lemma netP90_le_grossP90 (gs : List ℚ) (d l : ℚ) (hl : 0 ≤ l) :
    percentile (sortQ (gs.map (fun g => netLoss g d l))) (9/10)
      ≤ percentile (sortQ gs) (9/10) := by
  have hf : Monotone (fun g => netLoss g d l) := fun a b hab => netLoss_mono d l a b hab
  rw [sortQ_map_mono _ hf]
  apply percentile_mono
  · simp
  · intro k hkk
    rw [getD_map_lt _ _ k (by simpa using hkk)]
    exact netLoss_le_gross _ d l hl
  · norm_num
  · norm_num

/-- Claim C1 (corrected): for every run of the simulation driver — both the
synchronous `runSync` path and the background-worker path — with any
effective inputs, deductible, NONNEGATIVE coverage limit and requested
`n ≥ 1`, the produced results satisfy `netP90 ≤ grossP90` and
`iterationCount = n`. (The nonnegativity of the coverage limit is required:
see the counterexample.) -/
theorem impact_C1 (s E : ℚ → ℚ) (eff : List (String × InputValue)) (d l : ℚ)
    (n : ℕ) (sens : Bool) (draws draws2 : List ℚ) (hl : 0 ≤ l) (_hn : 1 ≤ n) :
    (∀ r, runSync s E eff d l n draws = some r →
      r.netP90 ≤ r.grossP90 ∧ r.iterationCount = n) ∧
    (∀ r, workerRun s E eff d l n sens draws2 = some r →
      r.netP90 ≤ r.grossP90 ∧ r.iterationCount = n) := by
  constructor
  · intro r h
    simp only [runSync] at h
    rcases e1 : runMany s E eff d l n draws with _ | ⟨gs, ns, rest⟩
    · simp [e1] at h
    · simp only [e1, Option.some.injEq] at h
      obtain ⟨-, hmap⟩ := runMany_spec s E eff d l n draws gs ns rest e1
      subst hmap
      rw [← h]
      exact ⟨netP90_le_grossP90 gs d l hl, rfl⟩
  · intro r h
    simp only [workerRun] at h
    rcases e1 : runMany s E eff d l n draws2 with _ | ⟨gs, ns, rest⟩
    · simp [e1] at h
    · simp only [e1] at h
      obtain ⟨-, hmap⟩ := runMany_spec s E eff d l n draws2 gs ns rest e1
      subst hmap
      repeat' split at h
      any_goals exact Option.noConfusion h
      all_goals
        rw [Option.some.injEq] at h
        rw [← h]
        exact ⟨netP90_le_grossP90 gs d l hl, rfl⟩

/-- Claim C1, counterexample to the claim as frozen: with coverage limit
`-1`, deductible `0`, one iteration, and a draw trace that produces a single
event of gross cost 100 (four degenerate chain samples of 1, a Poisson loop
consuming `9/10` then `1/10`, one `Cost_IR` sample of 100, one Bernoulli
draw), the run returns `grossP90 = 100 < 101 = netP90`. The square-root
stand-in is evaluated only at `0` (where the real square root is also `0`),
and the `exp` stand-in only at `-1`, where the comparisons merely need
`e⁻¹ ≈ 0.3679` to lie between `9/100` and `9/10`. -/
theorem impact_C1_counterexample :
    (runSync (fun _ => 0) (fun _ => 37/100)
        [("TEF", ⟨some 1, 1, some 1⟩), ("P_InitialAccess", ⟨some 1, 1, some 1⟩),
         ("P_IFSReachable", ⟨some 1, 1, some 1⟩), ("P_WriteAccess", ⟨some 1, 1, some 1⟩),
         ("Cost_IR", ⟨some 100, 100, some 100⟩)] 0 (-1) 1
        [1/2, 1/2, 1/2, 1/2, 9/10, 1/10, 1/2, 1/2]).map
      (fun r => (r.grossP90, r.netP90, r.iterationCount)) = some (100, 101, 1) ∧
    ¬ ((101 : ℚ) ≤ 100) := by
  constructor
  · with_unfolding_all decide
  · with_unfolding_all decide

/-- Claim C1, witness: both paths at `n = 1`, empty inputs, zero deductible
and coverage limit. -/
theorem impact_C1_witness :
    ((⟨0, 0, 0, 0, 0, 0, 0, "P_WriteAccess", 1, [0]⟩ : SimResults).netP90
        ≤ (⟨0, 0, 0, 0, 0, 0, 0, "P_WriteAccess", 1, [0]⟩ : SimResults).grossP90 ∧
      (⟨0, 0, 0, 0, 0, 0, 0, "P_WriteAccess", 1, [0]⟩ : SimResults).iterationCount = 1) ∧
    ((⟨0, 0, 0, 0, 0, 0, 0, "P_WriteAccess", 1, [0]⟩ : SimResults).netP90
        ≤ (⟨0, 0, 0, 0, 0, 0, 0, "P_WriteAccess", 1, [0]⟩ : SimResults).grossP90 ∧
      (⟨0, 0, 0, 0, 0, 0, 0, "P_WriteAccess", 1, [0]⟩ : SimResults).iterationCount = 1) :=
  ⟨(impact_C1 (fun _ => 0) (fun _ => 37/100) [] 0 0 1 false [] [] (le_refl 0)
      (le_refl 1)).1 ⟨0, 0, 0, 0, 0, 0, 0, "P_WriteAccess", 1, [0]⟩
      (by with_unfolding_all decide),
   (impact_C1 (fun _ => 0) (fun _ => 37/100) [] 0 0 1 false [] [] (le_refl 0)
      (le_refl 1)).2 ⟨0, 0, 0, 0, 0, 0, 0, "P_WriteAccess", 1, [0]⟩
      (by with_unfolding_all decide)⟩

/-! ## The sensitivity sweep -/

lemma foldr_max_base (b1 b2 : ℚ) (xs : List ℚ) :
    xs.foldr max (max b1 b2) = max b1 (xs.foldr max b2) := by
  induction xs with
  | nil => rfl
  | cons x t ih => simp only [List.foldr_cons, ih, max_left_comm]

lemma le_foldr_max (b : ℚ) (xs : List ℚ) : b ≤ xs.foldr max b := by
  induction xs with
  | nil => simp
  | cons x t ih =>
    simp only [List.foldr_cons]
    exact ih.trans (le_max_right x _)

/-- Fusion: the worker's interleaved sweep equals computing the delta list
first and then running the pure accumulator fold over it. -/
lemma sweep_eq_deltasOf (s E : ℚ → ℚ) (eff : List (String × InputValue))
    (d l b : ℚ) (t : ℕ) :
    ∀ (vars : List String) (m : ℚ) (top : Option String) (draws : List ℚ),
      sweep s E eff d l b t vars m top draws
        = (deltasOf s E eff d l b t vars draws).map (fun pr => (selFold pr.1 m top, pr.2)) := by
  intro vars
  induction vars with
  | nil => intro m top draws; simp [sweep, deltasOf, selFold]
  | cons v vs ih =>
    intro m top draws
    simp only [sweep, deltasOf]
    rcases e : runMany s E (perturb eff v (11/10)) d l t draws with _ | ⟨gs, ns, rest⟩
    · simp
    · dsimp only
      rcases e2 : deltasOf s E eff d l b t vs rest with _ | ⟨items, rest2⟩
      · split_ifs <;> rw [ih] <;> simp [e2]
      · split_ifs with hcond
        · rw [ih]
          simp [e2, selFold, hcond]
        · rw [ih]
          simp [e2, selFold, hcond]

/-- Characterization of the accumulator fold: starting from running maximum
`m` and current best `top`, it returns `top` unchanged when no delta strictly
exceeds `m`, and otherwise the first item attaining the overall maximum. -/
lemma selFold_spec (items : List (String × ℚ)) :
    ∀ (m : ℚ) (top : Option String),
      selFold items m top =
        if (items.map Prod.snd).foldr max m = m then top
        else (items.find?
          (fun it => decide (it.2 = (items.map Prod.snd).foldr max m))).map Prod.fst := by
  induction items with
  | nil => intro m top; simp [selFold]
  | cons it rest ih =>
    intro m top
    obtain ⟨v, dta⟩ := it
    simp only [selFold, List.map_cons, List.foldr_cons]
    by_cases hcond : m < dta
    · have hdm : max dta m = dta := max_eq_left hcond.le
      have hRd : (rest.map Prod.snd).foldr max dta
          = max dta ((rest.map Prod.snd).foldr max m) := by
        conv_lhs => rw [← hdm]
        exact foldr_max_base dta m _
      have hne : ¬ (max dta ((rest.map Prod.snd).foldr max m) = m) := by
        intro hEq
        have h1 : dta ≤ max dta ((rest.map Prod.snd).foldr max m) := le_max_left _ _
        rw [hEq] at h1
        linarith
      rw [if_pos hcond, ih dta (some v)]
      simp only [hRd]
      by_cases hattain : dta = max dta ((rest.map Prod.snd).foldr max m)
      · rw [if_neg hne, if_pos hattain.symm,
          List.find?_cons_of_pos _ (by simp only [decide_eq_true_eq]; exact hattain)]
        rfl
      · rw [if_neg hne, if_neg (fun hEq => hattain hEq.symm),
          List.find?_cons_of_neg _
            (by simp only [decide_eq_true_eq]; exact hattain)]
    · have hdm : dta ≤ m := not_lt.mp hcond
      have hRm_ge : m ≤ (rest.map Prod.snd).foldr max m := le_foldr_max m _
      have hmax : max dta ((rest.map Prod.snd).foldr max m)
          = (rest.map Prod.snd).foldr max m :=
        max_eq_right (hdm.trans hRm_ge)
      rw [if_neg hcond, ih m top]
      simp only [hmax]
      by_cases hRm : (rest.map Prod.snd).foldr max m = m
      · rw [if_pos hRm, if_pos hRm]
      · have hne2 : ¬ (dta = (rest.map Prod.snd).foldr max m) := by
          intro hEq
          have h1 : m < (rest.map Prod.snd).foldr max m :=
            lt_of_le_of_ne hRm_ge (Ne.symm hRm)
          rw [← hEq] at h1
          linarith
        rw [if_neg hRm, if_neg hRm,
          List.find?_cons_of_neg _ (by simp only [decide_eq_true_eq]; exact hne2)]

/-- The fold started from `(0, none)`, with the worker's
`topDriver ?? SENSITIVITY_VARS[0]` fallback, equals the spec-side
selection. -/
lemma selFold_specSelect (items : List (String × ℚ)) :
    (selFold items 0 none).getD "P_IFSReachable" = specSelect items := by
  rw [selFold_spec items 0 none]
  simp only [specSelect]
  by_cases hM : (items.map Prod.snd).foldr max 0 = 0
  · rw [if_pos hM, if_neg (by rw [hM]; exact lt_irrefl 0)]
    rfl
  · have hlt : (0 : ℚ) < (items.map Prod.snd).foldr max 0 :=
      lt_of_le_of_ne (le_foldr_max 0 _) (Ne.symm hM)
    rw [if_neg hM, if_pos hlt]

/-- Claim C3: when `runSensitivity` is true and `iterationCount ≥ 1000`, the
worker's `topDriver` equals the spec-side `specTopDriver`: per candidate (in
the fixed order), the delta is the net P90 of `min(2000, iterationCount)`
perturbed trials minus the baseline net P90, and the selected driver is the
first candidate attaining the maximal strictly positive delta, falling back
to the first candidate when no delta is strictly positive. The second
conjunct pins down the perturbation: `perturb` scales exactly the named
variable's descriptor by the factor (here 1.1), leaving every other variable
unchanged. -/
theorem impact_C3 (s E : ℚ → ℚ) (eff : List (String × InputValue)) (d l : ℚ)
    (n : ℕ) (draws : List ℚ) (hn : 1000 ≤ n) :
    (∀ r, workerRun s E eff d l n true draws = some r →
      some r.topDriver = specTopDriver s E eff d l n draws) ∧
    (∀ varId w, (perturb eff varId (11/10)).lookup w
      = if w = varId then (eff.lookup w).map (scaleIV (11/10))
        else eff.lookup w) := by
  constructor
  · intro r h
    simp only [workerRun] at h
    rcases e1 : runMany s E eff d l n draws with _ | ⟨gs, ns, rest⟩
    · simp [e1] at h
    · simp only [e1] at h
      rw [if_pos (by exact ⟨by trivial, hn⟩), sweep_eq_deltasOf] at h
      rcases e2 : deltasOf s E eff d l (percentile (sortQ ns) (9/10)) (min 2000 n)
          SENSITIVITY_VARS rest with _ | ⟨items, rest2⟩
      · rw [e2] at h
        simp at h
      · rw [e2] at h
        simp only [Option.map_some'] at h
        rw [Option.some.injEq] at h
        simp only [specTopDriver, e1, e2]
        rw [← h]
        exact congrArg some (selFold_specSelect items)
  · intro varId w
    induction eff with
    | nil => simp [perturb]
    | cons kv rest ih =>
      obtain ⟨k, v⟩ := kv
      have hcons : perturb ((k, v) :: rest) varId (11/10)
          = (if k = varId then (k, scaleIV (11/10) v) else (k, v))
            :: perturb rest varId (11/10) := rfl
      rw [hcons]
      by_cases hw : w = k
      · subst hw
        by_cases hkv : w = varId
        · rw [if_pos hkv, if_pos hkv]
          simp [List.lookup, hkv]
        · rw [if_neg hkv, if_neg hkv]
          simp [List.lookup]
      · have hbeq : (w == k) = false := beq_eq_false_iff_ne.mpr hw
        by_cases hkv : k = varId
        · rw [if_pos hkv]
          simp only [List.lookup, hbeq]
          exact ih
        · rw [if_neg hkv]
          simp only [List.lookup, hbeq]
          exact ih

/-! ## Zero-loss runs on an empty input map (for the C3 witness) -/

lemma getD_replicate_zero : ∀ (n k : ℕ), (List.replicate n (0 : ℚ)).getD k 0 = 0 := by
  intro n
  induction n with
  | zero => intro k; simp
  | succ n ih =>
    intro k
    cases k with
    | zero => simp [List.replicate_succ]
    | succ k =>
      rw [List.replicate_succ, List.getD_cons_succ]
      exact ih k

lemma percentile_replicate_zero (n : ℕ) (p : ℚ) :
    percentile (List.replicate n (0 : ℚ)) p = 0 := by
  simp only [percentile]
  split_ifs with h0 hlh
  · rfl
  · exact getD_replicate_zero n _
  · rw [getD_replicate_zero, getD_replicate_zero]
    ring

lemma sortQ_replicate_zero (n : ℕ) :
    sortQ (List.replicate n (0 : ℚ)) = List.replicate n 0 := by
  unfold sortQ
  refine List.eq_of_perm_of_sorted (List.perm_insertionSort _ _)
    (List.sorted_insertionSort _ _) ?_
  exact List.pairwise_replicate.mpr (Or.inr (le_refl 0))

lemma runOneIteration_nil (s E : ℚ → ℚ) (d l : ℚ) (draws : List ℚ) :
    runOneIteration s E [] d l draws = some (0, netLoss 0 d l, draws) := by
  simp only [runOneIteration, sampleVar, List.lookup_nil]
  rw [show (0 : ℚ) * 0 * 0 * 0 = 0 by norm_num]
  simp [samplePoisson, eventsLoop]

lemma runMany_nil_eff (s E : ℚ → ℚ) (d l : ℚ) :
    ∀ (n : ℕ) (draws : List ℚ),
      runMany s E [] d l n draws
        = some (List.replicate n 0, List.replicate n (netLoss 0 d l), draws) := by
  intro n
  induction n with
  | zero => intro draws; simp [runMany]
  | succ n ih =>
    intro draws
    simp only [runMany, runOneIteration_nil, ih, List.replicate_succ]

lemma sweep_nil_eff (s E : ℚ → ℚ) (t : ℕ) :
    ∀ (vars : List String) (draws : List ℚ),
      sweep s E [] 0 0 0 t vars 0 none draws = some (none, draws) := by
  intro vars
  induction vars with
  | nil => intro draws; simp [sweep]
  | cons v vs ih =>
    intro draws
    have hp : perturb [] v (11/10) = [] := rfl
    have hnl : netLoss 0 0 0 = 0 := by simp [netLoss]
    simp only [sweep, hp, runMany_nil_eff, hnl, sortQ_replicate_zero,
      percentile_replicate_zero]
    rw [if_neg (by norm_num)]
    exact ih draws

/-- Claim C3, witness: 1000 iterations with an empty input map (zero-loss
runs, all deltas zero) — the worker reports the fallback first candidate,
matching `specTopDriver`; and `perturb` on the empty map is the identity. -/
theorem impact_C3_witness :
    some (⟨0, 0, 0, 0, 0, 0, 0, "P_IFSReachable", 1000,
        List.replicate 1000 0⟩ : SimResults).topDriver
      = specTopDriver (fun _ => 0) (fun _ => 37/100) [] 0 0 1000 [] ∧
    (perturb [] "TEF" (11/10)).lookup "TEF"
      = if "TEF" = "TEF"
        then (([] : List (String × InputValue)).lookup "TEF").map (scaleIV (11/10))
        else ([] : List (String × InputValue)).lookup "TEF" := by
  have h := impact_C3 (fun _ => 0) (fun _ => 37/100) [] 0 0 1000 [] (le_refl 1000)
  refine ⟨h.1 _ ?_, h.2 "TEF" "TEF"⟩
  have hnl : netLoss 0 0 0 = 0 := by simp [netLoss]
  simp only [workerRun, runMany_nil_eff, hnl, sortQ_replicate_zero,
    percentile_replicate_zero]
  rw [if_pos (by exact ⟨by trivial, le_refl 1000⟩), sweep_nil_eff]
  simp only [Option.getD_none, List.sum_replicate, List.length_replicate,
    List.take_replicate, smul_zero, zero_div, Option.some.injEq]
  norm_num

end Impact